import Mathlib

set_option autoImplicit false

/-!
Verification of the hardware orchestration core of the `navigate` microscope
control software: connection retry (`device_startup_functions.auto_redial`,
`SerialConnectionFactory.build_connection`), per-channel timing
(`Microscope.calculate_exposure_sweep_times`), stage composition
(`Microscope.move_stage`, `Microscope.move_stage_offset`), the channel ring
(`Microscope.prepare_next_channel`), acquisition teardown
(`Microscope.stop_stage`, `Microscope.end_acquisition`), and the ASI Tiger
serial response parser (`TigerController.read_response`).

Machine floats of the Python source are embedded as rationals; Python dicts
keyed by strings or integers are embedded as association lists or as
functions where the code treats them as total.
-/

namespace Navigate

universe u v

/-!
## Connection retry: `navigate.model.device_startup_functions.auto_redial`

The successive outcomes of the calls to the connect function `func` are
embedded as `f : Nat → Except E A`: `f i` is what the `(i+1)`-st invocation
of `func(*args, **kwargs)` would do (`Except.error e` = raise `e`,
`Except.ok a` = return `a`).

The embedding returns the Python result together with the number of times
`func` was invoked and the number of `time.sleep(0.5)` back-off pauses taken.
A raised exception is `Except.error none`: on exhausting the tries the source
executes `raise exception`, which constructs a fresh instance of the
exception *class* with no arguments, so no underlying error value is
attached to what the caller sees.  A normal return of the Python value
`None` (only possible when `n_tries = 0`, since `val` starts as `None`) is
`Except.ok none`.

The `for i in range(n_tries)` loop is embedded with the attempt counter `i`
and the number `rem` of remaining iterations (`rem = n_tries - i` on entry);
`i < n_tries - 1` in the source is `rem ≠ 1`, i.e. `rem - 1 ≠ 0` below.
The `val.__del__()` cleanup branch is unreachable (`val` is still `None`
whenever an attempt raises, because the assignment to `val` only happens
when `func` returns), so it has no counterpart in the embedding.
-/

variable {E : Type u} {A : Type v}

/-- The retry loop of `auto_redial`, at attempt index `i` with `rem`
iterations of `range(n_tries)` remaining.  Result components: the Python
outcome, the number of invocations of `func`, the number of sleeps. -/
def autoRedialLoop (f : Nat → Except E A) : Nat → Nat → Except (Option E) (Option A) × Nat × Nat
  | _, 0 => (Except.ok none, 0, 0)
  | i, rem + 1 =>
    match f i with
    | Except.ok a => (Except.ok (some a), 1, 0)
    | Except.error _ =>
      if rem = 0 then
        (Except.error none, 1, 0)
      else
        let r := autoRedialLoop f (i + 1) rem
        (r.1, r.2.1 + 1, r.2.2 + 1)

/-- `auto_redial(func, args, n_tries, exception)`.  The Python default for
`n_tries` is 10. -/
def auto_redial (f : Nat → Except E A) (nTries : Nat) :
    Except (Option E) (Option A) × Nat × Nat :=
  autoRedialLoop f 0 nTries

/-- If the first `k` attempts starting at index `i` fail and attempt `i + k`
succeeds within the remaining budget, the loop returns the success value
after `k + 1` invocations and `k` sleeps. -/
theorem autoRedialLoop_ok (f : Nat → Except E A) (a : A) :
    ∀ (k i rem : Nat), (∀ j, j < k → ∃ e, f (i + j) = Except.error e) →
      f (i + k) = Except.ok a → k < rem →
      autoRedialLoop f i rem = (Except.ok (some a), k + 1, k) := by
  intro k
  induction k with
  | zero =>
    intro i rem _ hok hlt
    obtain ⟨r, rfl⟩ : ∃ r, rem = r + 1 := ⟨rem - 1, by omega⟩
    simp only [autoRedialLoop]
    rw [show i + 0 = i from rfl] at hok
    rw [hok]
  | succ k ih =>
    intro i rem hfail hok hlt
    obtain ⟨r, rfl⟩ : ∃ r, rem = r + 1 := ⟨rem - 1, by omega⟩
    obtain ⟨e, he⟩ := hfail 0 (Nat.succ_pos k)
    rw [show i + 0 = i from rfl] at he
    have hr : r ≠ 0 := by omega
    have hrec := ih (i + 1) r
      (fun j hj => by
        obtain ⟨e', he'⟩ := hfail (j + 1) (by omega)
        exact ⟨e', by rw [show i + 1 + j = i + (j + 1) by omega]; exact he'⟩)
      (by rw [show i + 1 + k = i + (k + 1) by omega]; exact hok)
      (by omega)
    simp only [autoRedialLoop, he, if_neg hr, hrec]

/-- If every attempt in the remaining budget fails, the loop raises the bare
exception after `rem` invocations and `rem - 1` sleeps. -/
theorem autoRedialLoop_err (f : Nat → Except E A) :
    ∀ (rem i : Nat), 1 ≤ rem → (∀ j, j < rem → ∃ e, f (i + j) = Except.error e) →
      autoRedialLoop f i rem = (Except.error none, rem, rem - 1) := by
  intro rem
  induction rem with
  | zero => intro i h; omega
  | succ r ih =>
    intro i _ hfail
    obtain ⟨e, he⟩ := hfail 0 (Nat.succ_pos r)
    rw [show i + 0 = i from rfl] at he
    by_cases hr : r = 0
    · subst hr
      simp [autoRedialLoop, he]
    · have hrec := ih (i + 1) (by omega)
        (fun j hj => by
          obtain ⟨e', he'⟩ := hfail (j + 1) (by omega)
          exact ⟨e', by rw [show i + 1 + j = i + (j + 1) by omega]; exact he'⟩)
      simp only [autoRedialLoop, he, if_neg hr, hrec]
      refine Prod.ext rfl (Prod.ext rfl ?_)
      simp
      omega

/-!
## Connection pooling: `SerialConnectionFactory.build_connection`

The class-level dict `SerialConnectionFactory._connections` is embedded as an
association list keyed by the port string (`str(port)`, `port = args[0]`).
The stored value is whatever `auto_redial` returned (an `Option A`).  On a
cache miss the factory runs `auto_redial` with its default `n_tries = 10`;
if that raises, nothing is stored and the exception propagates.
-/

/-- The `_connections` cache of `SerialConnectionFactory`. -/
structure SerialConnectionState (A : Type v) where
  conns : List (String × Option A)
deriving DecidableEq

/-- `SerialConnectionFactory.build_connection(build_connection_function, args,
exception)`.  Returns the Python outcome (the handle together with the cache
state after the call) and the number of invocations of the connect
function. -/
def SerialConnectionFactory.build_connection (st : SerialConnectionState A) (port : String)
    (f : Nat → Except E A) :
    Except (Option E) (Option A × SerialConnectionState A) × Nat :=
  match st.conns.lookup port with
  | some v => (Except.ok (v, st), 0)
  | none =>
    let r := auto_redial f 10
    match r.1 with
    | Except.ok v => (Except.ok (v, ⟨(port, v) :: st.conns⟩), r.2.1)
    | Except.error e => (Except.error e, r.2.1)

/-- C2: for every connect function and every `max_tries ≥ 1`, if the connect
function fails `k < max_tries` times and then succeeds, the retry used by
`build_connection` returns the successful result after exactly `k + 1`
invocations (with `k` back-off sleeps between attempts); if every attempt
fails it raises after exactly `max_tries` invocations (with `max_tries - 1`
back-off sleeps between attempts). -/
theorem C2_auto_redial_retry_contract (f : Nat → Except E A) (k nTries : Nat) (a : A)
    (hn : 1 ≤ nTries) :
    ((∀ j, j < k → ∃ e, f j = Except.error e) → k < nTries → f k = Except.ok a →
      auto_redial f nTries = (Except.ok (some a), k + 1, k))
    ∧ ((∀ j, j < nTries → ∃ e, f j = Except.error e) →
      auto_redial f nTries = (Except.error none, nTries, nTries - 1)) := by
  constructor
  · intro hfail hk hok
    exact autoRedialLoop_ok f a k 0 nTries (fun j hj => by simpa using hfail j hj)
      (by simpa using hok) hk
  · intro hfail
    exact autoRedialLoop_err f nTries 0 hn (fun j hj => by simpa using hfail j hj)

/-- Witness for C2: a function that fails twice and then returns 99 is called
three times out of a budget of four; a function that always fails exhausts a
budget of three after three calls and two sleeps. -/
theorem C2_auto_redial_retry_contract_witness :
    auto_redial (fun j => if j < 2 then Except.error j else Except.ok 99) 4 =
      (Except.ok (some 99), 3, 2)
    ∧ auto_redial (fun j => (Except.error j : Except Nat Nat)) 3 =
      (Except.error none, 3, 2) := by
  constructor
  · exact (C2_auto_redial_retry_contract (fun j => if j < 2 then Except.error j else Except.ok 99)
      2 4 99 (by omega)).1 (fun j hj => ⟨j, by simp [hj]⟩) (by omega) (by simp)
  · exact (C2_auto_redial_retry_contract (fun j => (Except.error j : Except Nat Nat))
      0 3 0 (by omega)).2 (fun j _ => ⟨j, rfl⟩)

/-- C3: for an identity key (port) with no cached handle and a connect
function that succeeds when invoked, the first call to `build_connection`
invokes the connect function exactly once and caches the handle, and a
second call with the same key returns the identical handle with zero further
invocations of the connect function. -/
theorem C3_build_connection_idempotent (st : SerialConnectionState A) (port : String)
    (f : Nat → Except E A) (a : A)
    (hfresh : st.conns.lookup port = none) (hok : f 0 = Except.ok a) :
    SerialConnectionFactory.build_connection st port f =
      (Except.ok (some a, ⟨(port, some a) :: st.conns⟩), 1)
    ∧ SerialConnectionFactory.build_connection ⟨(port, some a) :: st.conns⟩ port f =
      (Except.ok (some a, ⟨(port, some a) :: st.conns⟩), 0) := by
  have hred : auto_redial f 10 = (Except.ok (some a), 1, 0) :=
    autoRedialLoop_ok f a 0 0 10 (fun j hj => absurd hj (Nat.not_lt_zero j))
      (by simpa using hok) (by omega)
  constructor
  · simp [SerialConnectionFactory.build_connection, hfresh, hred]
  · simp [SerialConnectionFactory.build_connection, List.lookup]

/-- Witness for C3: a fresh cache, port "COM3" and a connect function that
immediately returns handle 7. -/
theorem C3_build_connection_idempotent_witness :
    SerialConnectionFactory.build_connection (⟨[]⟩ : SerialConnectionState Nat) "COM3"
        (fun _ => (Except.ok 7 : Except Nat Nat)) =
      (Except.ok (some 7, ⟨[("COM3", some 7)]⟩), 1)
    ∧ SerialConnectionFactory.build_connection (⟨[("COM3", some 7)]⟩ : SerialConnectionState Nat)
        "COM3" (fun _ => (Except.ok 7 : Except Nat Nat)) =
      (Except.ok (some 7, ⟨[("COM3", some 7)]⟩), 0) :=
  C3_build_connection_idempotent ⟨[]⟩ "COM3" _ 7 rfl rfl

/-- A connect function that always raises the error value 42. -/
def alwaysFail42 : Nat → Except Nat Unit := fun _ => Except.error 42

/-- Counterexample to C7 as stated: with a connect function that raises the
underlying error 42 on every attempt, `build_connection` raises an exception
that carries no underlying error at all (`Except.error none`, the bare
`raise exception` of the source), not one wrapping the last error 42. -/
theorem C7_counterexample_raise_does_not_wrap :
    (SerialConnectionFactory.build_connection (⟨[]⟩ : SerialConnectionState Unit) "COM1"
        alwaysFail42).1 = Except.error none
    ∧ (SerialConnectionFactory.build_connection (⟨[]⟩ : SerialConnectionState Unit) "COM1"
        alwaysFail42).1 ≠ Except.error (some 42) := by
  refine ⟨rfl, fun h => ?_⟩
  rw [show (SerialConnectionFactory.build_connection (⟨[]⟩ : SerialConnectionState Unit) "COM1"
    alwaysFail42).1 = Except.error none from rfl] at h
  simp at h

/-- C7 (amended): when all `max_tries = 10` connection attempts fail,
`build_connection` raises an instance of the configured exception type
constructed with no arguments; the last underlying error is logged but not
attached to the raised exception. -/
theorem C7_exhausted_raise_carries_nothing (st : SerialConnectionState A) (port : String)
    (f : Nat → Except E A)
    (hfresh : st.conns.lookup port = none)
    (hfail : ∀ j, j < 10 → ∃ e, f j = Except.error e) :
    SerialConnectionFactory.build_connection st port f = (Except.error none, 10)
    ∧ ∀ e : E, (SerialConnectionFactory.build_connection st port f).1 ≠
        Except.error (some e) := by
  have hred : auto_redial f 10 = (Except.error none, 10, 9) :=
    autoRedialLoop_err f 10 0 (by omega) (fun j hj => by simpa using hfail j hj)
  have hmain : SerialConnectionFactory.build_connection st port f = (Except.error none, 10) := by
    simp [SerialConnectionFactory.build_connection, hfresh, hred]
  exact ⟨hmain, fun e h => by rw [hmain] at h; simp at h⟩

/-- A connect function that always raises the error value 7. -/
def alwaysFail7 : Nat → Except Nat Unit := fun _ => Except.error 7

/-- Witness for the amended C7: a fresh cache and a connect function that
always raises 7; the raise carries no underlying error and happens after the
default ten attempts. -/
theorem C7_exhausted_raise_carries_nothing_witness :
    SerialConnectionFactory.build_connection (⟨[]⟩ : SerialConnectionState Unit) "COM2"
      alwaysFail7 = (Except.error none, 10) :=
  (C7_exhausted_raise_carries_nothing ⟨[]⟩ "COM2" alwaysFail7 rfl (fun j _ => ⟨7, rfl⟩)).1

/-!
## Timing calculator: `Microscope.calculate_exposure_sweep_times`

Embedding of `navigate/model/microscope.py` lines 587-709.  Configuration
values are embedded in the units the source reads them in (milliseconds for
`camera.delay`, `camera.settle_duration`, `remote_focus_ramp_falling` and
`remote_focus_settle_duration`; the function divides them by 1000), except
`camera_readout_time`, which embeds the return value of
`self.camera.calculate_readout_time()` (already in seconds).
`lightsheet_exposure` embeds the third component of
`self.camera.calculate_light_sheet_exposure_time(...)` (the updated
achievable exposure time) as a function of the requested exposure time.
Channels are the `experiment.MicroscopeState.channels` dict in insertion
order, keyed by the integer channel index (`channel_<n>`).
The source also writes `readout_time * 1000` back into the configuration and
pushes an `exposure_time` event on a Light-Sheet correction; these side
effects carry no information used by the returned dictionaries and have no
counterpart here.
-/

/-- Camera sensor mode (`experiment.CameraParameters.sensor_mode`). -/
inductive SensorMode where
  | Normal
  | LightSheet
deriving DecidableEq

/-- Camera readout direction (`experiment.CameraParameters.readout_direction`).
`TopToBottom`/`BottomToTop` stand for the non-bidirectional values. -/
inductive ReadoutDirection where
  | Bidirectional
  | RevBidirectional
  | TopToBottom
  | BottomToTop
deriving DecidableEq

/-- One channel of `MicroscopeState.channels`, the fields used by the timing
calculator: `is_selected` and `camera_exposure_time` (ms). -/
structure TimingChannel where
  is_selected : Bool
  camera_exposure_time : ℚ
deriving DecidableEq

/-- Configuration slice read by `calculate_exposure_sweep_times`. -/
structure TimingConfig where
  delay : ℚ
  settle_duration : ℚ
  remote_focus_ramp_falling : ℚ
  remote_focus_settle_duration : ℚ
  percent_smoothing : ℚ
  sensor_mode : SensorMode
  readout_direction : ReadoutDirection
  camera_readout_time : ℚ
  lightsheet_exposure : ℚ → ℚ
  channels : List (Nat × TimingChannel)

/-- Python `round(x, 4)` on the updated Light-Sheet exposure time. -/
def round4 (q : ℚ) : ℚ := (round (q * 10000) : ℚ) / 10000

/-- The `readout_time` local: `camera.calculate_readout_time()` in `Normal`
mode, otherwise the initial 0. -/
def TimingConfig.readout_time (cfg : TimingConfig) : ℚ :=
  if cfg.sensor_mode = SensorMode.Normal then cfg.camera_readout_time else 0

/-- The effective `remote_focus_ramp_falling` local (seconds): zeroed by the
`elif` branch when the mode is not `Normal` and the readout direction is
bidirectional. -/
def TimingConfig.ramp_falling_eff (cfg : TimingConfig) : ℚ :=
  if cfg.sensor_mode ≠ SensorMode.Normal ∧
      (cfg.readout_direction = ReadoutDirection.Bidirectional ∨
        cfg.readout_direction = ReadoutDirection.RevBidirectional)
  then 0 else cfg.remote_focus_ramp_falling / 1000

/-- The per-channel `exposure_time` local (seconds) after the Light-Sheet
correction: in `Light-Sheet` mode, if the achievable exposure differs from
the requested one, the corrected value rounded to 4 decimals is used. -/
def channelExposureTime (cfg : TimingConfig) (ch : TimingChannel) : ℚ :=
  let exposure_time := ch.camera_exposure_time / 1000
  if cfg.sensor_mode = SensorMode.LightSheet then
    let updated := cfg.lightsheet_exposure exposure_time
    if updated ≠ exposure_time then round4 updated else exposure_time
  else exposure_time

/-- The per-channel `sweep_time` value stored in `sweep_times`. -/
def channelSweepTime (cfg : TimingConfig) (ch : TimingChannel) : ℚ :=
  let exposure_time := channelExposureTime cfg ch
  let camera_delay := cfg.delay / 1000
  let camera_settle_duration := cfg.settle_duration / 1000
  let duty_cycle_wait_duration := cfg.remote_focus_settle_duration / 1000
  let sweep_time := exposure_time + cfg.readout_time + camera_delay +
    max (cfg.ramp_falling_eff + duty_cycle_wait_duration)
      (max camera_settle_duration camera_delay) - camera_delay
  if 0 < cfg.percent_smoothing then (1 + cfg.percent_smoothing / 100) * sweep_time
  else sweep_time

/-- `Microscope.calculate_exposure_sweep_times`: the `(exposure_times,
sweep_times)` dictionaries over the selected channels. -/
def calculate_exposure_sweep_times (cfg : TimingConfig) :
    List (Nat × ℚ) × List (Nat × ℚ) :=
  (cfg.channels.filterMap (fun p =>
      if p.2.is_selected then some (p.1, channelExposureTime cfg p.2 + cfg.readout_time)
      else none),
   cfg.channels.filterMap (fun p =>
      if p.2.is_selected then some (p.1, channelSweepTime cfg p.2) else none))

/-- Looking up a selected channel in the per-channel result dictionary
returns the per-channel value, provided channel keys are distinct. -/
theorem lookup_filterMap_sel {β : Type} (g : TimingChannel → β) :
    ∀ (l : List (Nat × TimingChannel)) (key : Nat) (ch : TimingChannel),
      (key, ch) ∈ l → ch.is_selected = true → (l.map Prod.fst).Nodup →
      (l.filterMap (fun p =>
        if p.2.is_selected then some (p.1, g p.2) else none)).lookup key = some (g ch) := by
  intro l
  induction l with
  | nil => intro key ch h _ _; simp at h
  | cons hd tl ih =>
    intro key ch hmem hsel hnodup
    obtain ⟨k, c⟩ := hd
    rw [List.map_cons, List.nodup_cons] at hnodup
    rcases List.mem_cons.mp hmem with heq | htl
    · injection heq with h1 h2
      subst h1; subst h2
      simp [List.filterMap_cons, hsel, List.lookup]
    · have hmemmap : key ∈ tl.map Prod.fst := List.mem_map.mpr ⟨(key, ch), htl, rfl⟩
      have hne : key ≠ k := fun h => hnodup.1 (h ▸ hmemmap)
      have hkey : (key == k) = false := beq_eq_false_iff_ne.mpr hne
      have hrec := ih key ch htl hsel hnodup.2
      by_cases hhd : c.is_selected = true
      · simp [List.filterMap_cons, hhd, List.lookup, hkey, hrec]
      · simp [List.filterMap_cons, hhd, hrec]

/-- The configuration of the concrete scenario of C1: readout_time = 2 ms,
camera_delay = 1 ms, settle = 3 ms, ramp_falling = 4 ms,
duty_cycle_wait = 1 ms, exposure = 10 ms, smoothing = 0, one selected
channel. -/
def scenarioConfig : TimingConfig := {
  delay := 1
  settle_duration := 3
  remote_focus_ramp_falling := 4
  remote_focus_settle_duration := 1
  percent_smoothing := 0
  sensor_mode := SensorMode.Normal
  readout_direction := ReadoutDirection.TopToBottom
  camera_readout_time := 2 / 1000
  lightsheet_exposure := fun e => e
  channels := [(1, { is_selected := true, camera_exposure_time := 10 })] }

/-- C1: in Normal readout mode, for every selected channel the stored sweep
time is `exposure_time + readout_time + camera_delay + max(ramp_falling +
duty_cycle_wait, settle_duration, camera_delay) - camera_delay`, multiplied
by `(1 + smoothing / 100)` exactly when the percent smoothing is positive,
and the stored exposure time is `exposure_time + readout_time`; in the
concrete scenario (readout 2 ms, delay 1 ms, settle 3 ms, ramp 4 ms, duty
cycle wait 1 ms, exposure 10 ms, smoothing 0) the sweep time is 17 ms. -/
theorem C1_calculate_exposure_sweep_times (cfg : TimingConfig) (key : Nat)
    (ch : TimingChannel)
    (hmem : (key, ch) ∈ cfg.channels) (hsel : ch.is_selected = true)
    (hnodup : (cfg.channels.map Prod.fst).Nodup)
    (hmode : cfg.sensor_mode = SensorMode.Normal) :
    ((calculate_exposure_sweep_times cfg).2.lookup key = some
      ((if 0 < cfg.percent_smoothing then 1 + cfg.percent_smoothing / 100 else 1) *
        (ch.camera_exposure_time / 1000 + cfg.camera_readout_time + cfg.delay / 1000 +
          max (cfg.remote_focus_ramp_falling / 1000 + cfg.remote_focus_settle_duration / 1000)
            (max (cfg.settle_duration / 1000) (cfg.delay / 1000)) -
          cfg.delay / 1000))
    ∧ (calculate_exposure_sweep_times cfg).1.lookup key = some
      (ch.camera_exposure_time / 1000 + cfg.camera_readout_time))
    ∧ (calculate_exposure_sweep_times scenarioConfig).2.lookup 1 = some (17 / 1000) := by
  refine ⟨⟨?_, ?_⟩, ?_⟩
  · rw [show (calculate_exposure_sweep_times cfg).2 = cfg.channels.filterMap (fun p =>
        if p.2.is_selected then some (p.1, channelSweepTime cfg p.2) else none) from rfl]
    rw [lookup_filterMap_sel (channelSweepTime cfg) cfg.channels key ch hmem hsel hnodup]
    have hexp : channelExposureTime cfg ch = ch.camera_exposure_time / 1000 := by
      simp [channelExposureTime, hmode]
    have hread : cfg.readout_time = cfg.camera_readout_time := by
      simp [TimingConfig.readout_time, hmode]
    have hramp : cfg.ramp_falling_eff = cfg.remote_focus_ramp_falling / 1000 := by
      simp [TimingConfig.ramp_falling_eff, hmode]
    rw [channelSweepTime, hexp, hread, hramp]
    split
    · rfl
    · rw [one_mul]
  · rw [show (calculate_exposure_sweep_times cfg).1 = cfg.channels.filterMap (fun p =>
        if p.2.is_selected then some (p.1, channelExposureTime cfg p.2 + cfg.readout_time)
        else none) from rfl]
    rw [lookup_filterMap_sel (fun c => channelExposureTime cfg c + cfg.readout_time)
      cfg.channels key ch hmem hsel hnodup]
    simp [channelExposureTime, TimingConfig.readout_time, hmode]
  · have hval : channelSweepTime scenarioConfig
        { is_selected := true, camera_exposure_time := 10 } = 17 / 1000 := by
      rw [channelSweepTime, channelExposureTime, TimingConfig.readout_time,
        TimingConfig.ramp_falling_eff]
      norm_num [scenarioConfig, max_def]
    rw [show (calculate_exposure_sweep_times scenarioConfig).2 =
      [(1, channelSweepTime scenarioConfig
        { is_selected := true, camera_exposure_time := 10 })] from rfl]
    simp [List.lookup, hval]

/-- Witness for C1: the concrete scenario channel stores exposure time
12 ms and sweep time 17 ms. -/
theorem C1_calculate_exposure_sweep_times_witness :
    (calculate_exposure_sweep_times scenarioConfig).2.lookup 1 = some (17 / 1000)
    ∧ (calculate_exposure_sweep_times scenarioConfig).1.lookup 1 = some (12 / 1000) := by
  have h := C1_calculate_exposure_sweep_times scenarioConfig 1
    { is_selected := true, camera_exposure_time := 10 }
    (by simp [scenarioConfig]) rfl (by simp [scenarioConfig]) rfl
  refine ⟨h.2, ?_⟩
  rw [h.1.2]
  norm_num [scenarioConfig]

/-!
## Stage composer: `Microscope.move_stage` and `Microscope.move_stage_offset`

`Microscope.stages_list` is a list of `(stage, axes)` pairs; the dict
`Microscope.stages` maps an axis to the *last* stage whose configured axes
contain it (dict insertion order, later writes win).  A stage controller is
identified by its index in `stages_list`; its observable motion results are
embedded as functions of the arguments passed.  The central-focus
bookkeeping of `move_stage` (`update_focus`) belongs to the orchestrator
state machine modelled further below and is not part of this composition
slice.
-/

/-- One entry of `Microscope.stages_list`: the axes the underlying stage
controller owns together with the results its motion calls report. -/
structure StageBinding where
  axes : List String
  move_absolute : List (String × ℚ) → Bool
  move_axis_absolute : String → ℚ → Bool

/-- One motion call issued to an underlying stage controller, identified by
its position in `stages_list`.  `moveAbsolute` carries the exact dict passed
(keys of the form `<axis>_abs`); `moveAxisAbsolute` carries the bare axis
and target passed to `move_axis_absolute(axis, abs_pos, wait_until_done)`. -/
inductive StageCall where
  | moveAbsolute (stage : Nat) (pos : List (String × ℚ))
  | moveAxisAbsolute (stage : Nat) (axis : String) (target : ℚ)
deriving DecidableEq

/-- The stage index a call was issued to. -/
def StageCall.stage : StageCall → Nat
  | .moveAbsolute i _ => i
  | .moveAxisAbsolute i _ _ => i

/-- The axis/target pairs a call carries. -/
def StageCall.payload : StageCall → List (String × ℚ)
  | .moveAbsolute _ pos => pos
  | .moveAxisAbsolute _ a v => [(a, v)]

/-- `axis_key[: axis_key.index("_")]`: the axis name of an `<axis>_abs`
dictionary key.  (For a key with no underscore the source raises
`ValueError`; the embedding returns the whole key, a case no caller
produces.) -/
def axisOf (key : String) : String := String.mk (key.data.takeWhile (fun c => c != '_'))

/-- The dict `Microscope.stages` at `axis`: the last `stages_list` entry
whose axes contain `axis`, with its index. -/
def stagesDict (stages_list : List StageBinding) (axis : String) : Option (Nat × StageBinding) :=
  (stages_list.enum.filter (fun p => decide (axis ∈ p.2.axes))).getLast?

/-- The `for stage, axes in self.stages_list` loop of `move_stage`: filters
the requested dict down to the axes each stage owns, calls `move_absolute`
only when that sub-dict is non-empty, and ANDs the success flags.  `idx` is
the index of the first stage of `stages` within the whole `stages_list`. -/
def moveStageLoop (pos_dict : List (String × ℚ)) :
    List StageBinding → Nat → Bool × List StageCall
  | [], _ => (true, [])
  | st :: rest, idx =>
    let pos := pos_dict.filter (fun kv => decide (axisOf kv.1 ∈ st.axes))
    let r := moveStageLoop pos_dict rest (idx + 1)
    if pos.isEmpty then r
    else (st.move_absolute pos && r.1, StageCall.moveAbsolute idx pos :: r.2)

/-- `Microscope.move_stage(pos_dict, wait_until_done)`: a single-key dict is
routed through `self.stages[axis].move_axis_absolute` (`Except.error ()` is
the `KeyError` when no stage owns the axis); otherwise the partitioning loop
runs.  Returns the success flag and the calls issued. -/
def Microscope.move_stage (stages_list : List StageBinding)
    (pos_dict : List (String × ℚ)) : Except Unit (Bool × List StageCall) :=
  match pos_dict with
  | [(axis_key, v)] =>
    let axis := axisOf axis_key
    match stagesDict stages_list axis with
    | some (i, st) =>
      Except.ok (st.move_axis_absolute axis v, [StageCall.moveAxisAbsolute i axis v])
    | none => Except.error ()
  | _ => Except.ok (moveStageLoop pos_dict stages_list 0)

/-- The success flag an issued call reports, read back from `stages_list`. -/
def callSuccess (stages_list : List StageBinding) : StageCall → Bool
  | .moveAbsolute i pos =>
    match stages_list.get? i with
    | some st => st.move_absolute pos
    | none => true
  | .moveAxisAbsolute i a v =>
    match stages_list.get? i with
    | some st => st.move_axis_absolute a v
    | none => true

/-- The `for stage, axes in self.stages_list` loop of `move_stage_offset`:
every stage is commanded on every axis it owns. -/
def moveOffsetLoop (posOf self_off former_off : String → ℚ) :
    List StageBinding → Nat → List StageCall
  | [], _ => []
  | st :: rest, idx =>
    StageCall.moveAbsolute idx (st.axes.map (fun a =>
      (a ++ "_abs", posOf a + self_off a - former_off a)) ) ::
    moveOffsetLoop posOf self_off former_off rest (idx + 1)

/-- `Microscope.move_stage_offset(former_microscope)`: `posOf` is the fresh
stage position report (`get_stage_position` after forcing a hardware query),
`self_offset` the new configuration's per-axis offsets, `former_offset` the
former configuration's offsets (`none` embeds `former_microscope = None`,
where the source substitutes an all-zero offset dict). -/
def Microscope.move_stage_offset (stages_list : List StageBinding) (posOf : String → ℚ)
    (self_offset : String → ℚ) (former_offset : Option (String → ℚ)) : List StageCall :=
  let former := match former_offset with
    | some g => g
    | none => fun _ => 0
  moveOffsetLoop posOf self_offset former stages_list 0

/-- Each entry of the offset-move loop commands stage `idx + n` on exactly
its own axes. -/
theorem moveOffsetLoop_get (posOf oB oA : String → ℚ) :
    ∀ (l : List StageBinding) (idx n : Nat) (hn : n < l.length),
      (moveOffsetLoop posOf oB oA l idx).get? n =
        some (StageCall.moveAbsolute (idx + n) ((l.get ⟨n, hn⟩).axes.map
          (fun a => (a ++ "_abs", posOf a + oB a - oA a)))) := by
  intro l
  induction l with
  | nil => intro idx n hn; simp at hn
  | cons st rest ih =>
    intro idx n hn
    match n with
    | 0 => simp [moveOffsetLoop]
    | m + 1 =>
      have := ih (idx + 1) m (by simpa using Nat.lt_of_succ_lt_succ hn)
      simpa [moveOffsetLoop, Nat.add_assoc, Nat.add_comm 1 m] using this

/-- C8: switching from configuration A (per-axis offsets `oA`) to
configuration B (offsets `oB`) while the stages report position `posOf`
commands every stage, on every axis it owns, to the absolute target
`posOf a + oB a - oA a`; with no former microscope the former offsets are
zero. -/
theorem C8_move_stage_offset_targets (stages_list : List StageBinding)
    (posOf oB oA : String → ℚ) :
    (∀ n (hn : n < stages_list.length),
      (Microscope.move_stage_offset stages_list posOf oB (some oA)).get? n =
        some (StageCall.moveAbsolute n ((stages_list.get ⟨n, hn⟩).axes.map
          (fun a => (a ++ "_abs", posOf a + oB a - oA a)))))
    ∧ Microscope.move_stage_offset stages_list posOf oB none =
        moveOffsetLoop posOf oB (fun _ => 0) stages_list 0 := by
  refine ⟨fun n hn => ?_, rfl⟩
  have := moveOffsetLoop_get posOf oB oA stages_list 0 n hn
  simpa [Microscope.move_stage_offset] using this

/-- A stage controller owning x and y whose calls report `b`. -/
def xyController (b : Bool) : StageBinding :=
  { axes := ["x", "y"], move_absolute := fun _ => b, move_axis_absolute := fun _ _ => b }

/-- A stage controller owning z and f whose calls report `b`. -/
def zfController (b : Bool) : StageBinding :=
  { axes := ["z", "f"], move_absolute := fun _ => b, move_axis_absolute := fun _ _ => b }

/-- Witness for C8: at reported position 2 with new offsets 5 and former
offsets 3, the second controller (owning z and f) is commanded to
2 + 5 - 3 = 4 on both axes. -/
theorem C8_move_stage_offset_targets_witness :
    (Microscope.move_stage_offset [xyController true, zfController true]
        (fun _ => 2) (fun _ => 5) (some (fun _ => 3))).get? 1 =
      some (StageCall.moveAbsolute 1 [("z_abs", 4), ("f_abs", 4)]) := by
  have h := (C8_move_stage_offset_targets [xyController true, zfController true]
    (fun _ => 2) (fun _ => 5) (fun _ => 3)).1 1 (by norm_num)
  rw [h]
  norm_num [zfController]
  exact ⟨rfl, rfl⟩

/-- The partitioning loop of `move_stage` on an empty request issues no
calls and reports success. -/
theorem moveStageLoop_nil_pos :
    ∀ (stages : List StageBinding) (idx : Nat),
      moveStageLoop [] stages idx = (true, []) := by
  intro stages
  induction stages with
  | nil => intro idx; rfl
  | cons st rest ih =>
    intro idx
    simp only [moveStageLoop, List.filter_nil, List.isEmpty_nil, if_true]
    exact ih (idx + 1)

/-- Every call the partitioning loop emits is an absolute move to some stage
`idx + k` carrying exactly the requested entries whose axes that stage owns
(a non-empty sub-dict). -/
theorem moveStageLoop_mem (pos_dict : List (String × ℚ)) :
    ∀ (stages : List StageBinding) (idx : Nat) (c : StageCall),
      c ∈ (moveStageLoop pos_dict stages idx).2 →
      ∃ k, ∃ hk : k < stages.length,
        c = StageCall.moveAbsolute (idx + k) (pos_dict.filter (fun kv =>
          decide (axisOf kv.1 ∈ (stages.get ⟨k, hk⟩).axes)))
        ∧ (pos_dict.filter (fun kv =>
            decide (axisOf kv.1 ∈ (stages.get ⟨k, hk⟩).axes))).isEmpty = false := by
  intro stages
  induction stages with
  | nil => intro idx c hc; simp [moveStageLoop] at hc
  | cons st rest ih =>
    intro idx c hc
    simp only [moveStageLoop] at hc
    by_cases hemp : (pos_dict.filter (fun kv => decide (axisOf kv.1 ∈ st.axes))).isEmpty = true
    · rw [if_pos hemp] at hc
      obtain ⟨k, hk, hceq, hne⟩ := ih (idx + 1) c hc
      refine ⟨k + 1, Nat.succ_lt_succ hk, ?_, ?_⟩
      · rw [hceq]
        congr 1
        omega
      · exact hne
    · replace hemp : (pos_dict.filter (fun kv =>
          decide (axisOf kv.1 ∈ st.axes))).isEmpty = false := by
        simpa using hemp
      rw [if_neg (by simp [hemp])] at hc
      rcases List.mem_cons.mp hc with hhd | htl
      · exact ⟨0, Nat.succ_pos _, by simpa using hhd, by simpa using hemp⟩
      · obtain ⟨k, hk, hceq, hne⟩ := ih (idx + 1) c htl
        refine ⟨k + 1, Nat.succ_lt_succ hk, ?_, ?_⟩
        · rw [hceq]
          congr 1
          omega
        · exact hne

/-- The partitioning loop issues exactly one call to stage `idx + n` when it
owns a requested axis and none otherwise. -/
theorem moveStageLoop_count (pos_dict : List (String × ℚ)) :
    ∀ (stages : List StageBinding) (idx n : Nat) (hn : n < stages.length),
      (moveStageLoop pos_dict stages idx).2.countP (fun c => c.stage == idx + n) =
        if (pos_dict.filter (fun kv =>
            decide (axisOf kv.1 ∈ (stages.get ⟨n, hn⟩).axes))).isEmpty then 0 else 1 := by
  intro stages
  induction stages with
  | nil => intro idx n hn; simp at hn
  | cons st rest ih =>
    intro idx n hn
    have hrest_big : ∀ c ∈ (moveStageLoop pos_dict rest (idx + 1)).2, idx < c.stage := by
      intro c hc
      obtain ⟨k, hk, hceq, -⟩ := moveStageLoop_mem pos_dict rest (idx + 1) c hc
      rw [hceq]
      simp only [StageCall.stage]
      omega
    match n with
    | 0 =>
      have hz : (moveStageLoop pos_dict rest (idx + 1)).2.countP
          (fun c => c.stage == idx + 0) = 0 := by
        rw [List.countP_eq_zero]
        intro c hc
        have := hrest_big c hc
        simp only [beq_iff_eq]
        omega
      simp only [moveStageLoop]
      by_cases hemp : (pos_dict.filter (fun kv => decide (axisOf kv.1 ∈ st.axes))).isEmpty = true
      · rw [if_pos hemp]
        rw [show (st :: rest).get ⟨0, hn⟩ = st from rfl, if_pos hemp]
        exact hz
      · rw [if_neg hemp]
        rw [show (st :: rest).get ⟨0, hn⟩ = st from rfl,
          if_neg hemp]
        rw [List.countP_cons, hz]
        simp [StageCall.stage]
    | m + 1 =>
      have hih := ih (idx + 1) m (Nat.lt_of_succ_lt_succ hn)
      have hshift : idx + 1 + m = idx + (m + 1) := by omega
      rw [hshift] at hih
      simp only [moveStageLoop]
      by_cases hemp : (pos_dict.filter (fun kv => decide (axisOf kv.1 ∈ st.axes))).isEmpty = true
      · rw [if_pos hemp]
        exact hih
      · rw [if_neg hemp]
        rw [List.countP_cons]
        have hhd : ((StageCall.moveAbsolute idx (pos_dict.filter (fun kv =>
            decide (axisOf kv.1 ∈ st.axes)))).stage == idx + (m + 1)) = false :=
          beq_eq_false_iff_ne.mpr (by simp only [StageCall.stage]; omega)
        rw [hhd]
        simpa using hih

/-- The success flag of the partitioning loop is the AND of the per-call
success flags, read back from the full stage list. -/
theorem moveStageLoop_success (pos_dict : List (String × ℚ))
    (full : List StageBinding) :
    ∀ (stages : List StageBinding) (idx : Nat),
      (∀ k, k < stages.length → full.get? (idx + k) = stages.get? k) →
      (moveStageLoop pos_dict stages idx).1 =
        (moveStageLoop pos_dict stages idx).2.all (callSuccess full) := by
  intro stages
  induction stages with
  | nil => intro idx _; rfl
  | cons st rest ih =>
    intro idx hfull
    have h0 : full.get? idx = some st := by
      have := hfull 0 (Nat.succ_pos _)
      simpa using this
    have hihyp : ∀ k, k < rest.length → full.get? (idx + 1 + k) = rest.get? k := by
      intro k hk
      have := hfull (k + 1) (Nat.succ_lt_succ hk)
      rw [show idx + (k + 1) = idx + 1 + k by omega] at this
      simpa using this
    have hrec := ih (idx + 1) hihyp
    simp only [moveStageLoop]
    by_cases hemp : (pos_dict.filter (fun kv => decide (axisOf kv.1 ∈ st.axes))).isEmpty = true
    · rw [if_pos hemp]
      exact hrec
    · rw [if_neg hemp]
      simp only [List.all_cons]
      rw [show callSuccess full (StageCall.moveAbsolute idx (pos_dict.filter (fun kv =>
        decide (axisOf kv.1 ∈ st.axes)))) = st.move_absolute (pos_dict.filter (fun kv =>
        decide (axisOf kv.1 ∈ st.axes))) from by rw [callSuccess, h0]]
      rw [hrec]

/-- A block of enumerated stages none of which owns `axis` filters to
nothing. -/
theorem filter_enumFrom_nil {axis : String} :
    ∀ (l : List StageBinding) (n : Nat), (∀ t ∈ l, axis ∉ t.axes) →
      (List.enumFrom n l).filter (fun p => decide (axis ∈ p.2.axes)) = [] := by
  intro l
  induction l with
  | nil => intro n _; rfl
  | cons st rest ih =>
    intro n h
    have h0 : axis ∉ st.axes := h st (List.mem_cons_self _ _)
    simp only [List.enumFrom, List.filter_cons]
    rw [if_neg (by simpa using h0)]
    exact ih (n + 1) (fun t ht => h t (List.mem_cons_of_mem _ ht))

/-- With pairwise-disjoint ownership, the enumerated-and-filtered stage list
for an owned axis is exactly the singleton of its owner. -/
theorem enumFrom_filter_owner {axis : String} :
    ∀ (stages : List StageBinding),
      stages.Pairwise (fun s t => ∀ a, a ∈ s.axes → a ∉ t.axes) →
      ∀ (n i : Nat) (hi : i < stages.length), axis ∈ (stages.get ⟨i, hi⟩).axes →
        (List.enumFrom n stages).filter (fun p => decide (axis ∈ p.2.axes)) =
          [(n + i, stages.get ⟨i, hi⟩)] := by
  intro stages
  induction stages with
  | nil => intro _ n i hi; simp at hi
  | cons st rest ih =>
    intro hdisj n i hi hmem
    rw [List.pairwise_cons] at hdisj
    match i with
    | 0 =>
      have hmem' : axis ∈ st.axes := hmem
      have hrest : ∀ t ∈ rest, axis ∉ t.axes := fun t ht => hdisj.1 t ht axis hmem'
      simp only [List.enumFrom, List.filter_cons]
      rw [if_pos (by simpa using hmem')]
      rw [filter_enumFrom_nil rest (n + 1) hrest]
      simp
    | m + 1 =>
      have hm : m < rest.length := Nat.lt_of_succ_lt_succ hi
      have hmem' : axis ∈ (rest.get ⟨m, hm⟩).axes := hmem
      have hnothead : axis ∉ st.axes := by
        intro hax
        exact hdisj.1 (rest.get ⟨m, hm⟩) (rest.get_mem m hm) axis hax hmem'
      simp only [List.enumFrom, List.filter_cons]
      rw [if_neg (by simpa using hnothead)]
      rw [ih hdisj.2 (n + 1) m hm hmem']
      congr 2
      omega

/-- With pairwise-disjoint ownership an axis owned by stage `n` is owned by
no other stage. -/
theorem disjoint_unique_owner {stages : List StageBinding}
    (hdisj : stages.Pairwise (fun s t => ∀ a, a ∈ s.axes → a ∉ t.axes))
    {axis : String} {n j : Nat} (hn : n < stages.length) (hj : j < stages.length)
    (hax : axis ∈ (stages.get ⟨n, hn⟩).axes) (hne : j ≠ n) :
    axis ∉ (stages.get ⟨j, hj⟩).axes := by
  rw [List.pairwise_iff_get] at hdisj
  rcases Nat.lt_or_ge j n with h | h
  · intro hmem
    exact hdisj ⟨j, hj⟩ ⟨n, hn⟩ h axis hmem hax
  · have h' : n < j := by omega
    exact hdisj ⟨n, hn⟩ ⟨j, hj⟩ h' axis hax

/-- Filtering leaves nothing exactly when no element satisfies the
predicate. -/
theorem filter_isEmpty_eq_not_any {α : Type} (p : α → Bool) (l : List α) :
    (l.filter p).isEmpty = !(l.any p) := by
  induction l with
  | nil => rfl
  | cons a l ih =>
    by_cases hp : p a = true <;> simp [List.filter_cons, hp, ih]

/-- `axisOf` is idempotent (a bare axis name has no underscore left). -/
theorem axisOf_idem (key : String) : axisOf (axisOf key) = axisOf key := by
  rw [axisOf, axisOf]
  congr 1
  induction key.data with
  | nil => rfl
  | cons c cs ih =>
    by_cases hc : (c != '_') = true
    · simp [List.takeWhile_cons, hc, ih]
    · simp [List.takeWhile_cons, Bool.not_eq_true _ ▸ hc]

/-- C4: for a request whose axes are owned without overlap by the stage
controllers, `move_stage` issues exactly one absolute-move call to each
controller owning at least one requested axis (passing exactly the
requested entries for the axes that controller owns) and none to any other,
and returns the AND of the per-controller success flags; concretely, with
Controller1 owning {x, y} and Controller2 owning {z, f},
`move_stage({x_abs: 10, z_abs: 5})` issues one call to Controller1 with
{x_abs: 10} and one to Controller2 with {z_abs: 5} and returns
`b1 && b2`. -/
theorem C4_move_stage_partition (stages_list : List StageBinding)
    (pos_dict : List (String × ℚ)) (b1 b2 : Bool)
    (hdisj : stages_list.Pairwise (fun s t => ∀ a, a ∈ s.axes → a ∉ t.axes))
    (howned : ∀ kv ∈ pos_dict, ∃ n, ∃ hn : n < stages_list.length,
        axisOf kv.1 ∈ (stages_list.get ⟨n, hn⟩).axes) :
    (∃ b calls, Microscope.move_stage stages_list pos_dict = Except.ok (b, calls)
      ∧ (∀ n (hn : n < stages_list.length),
          calls.countP (fun c => c.stage == n) =
            if pos_dict.any (fun kv =>
              decide (axisOf kv.1 ∈ (stages_list.get ⟨n, hn⟩).axes)) then 1 else 0)
      ∧ (∀ c ∈ calls, ∃ n, ∃ hn : n < stages_list.length, c.stage = n ∧
          c.payload.map (fun kv => (axisOf kv.1, kv.2)) =
            (pos_dict.filter (fun kv =>
              decide (axisOf kv.1 ∈ (stages_list.get ⟨n, hn⟩).axes))).map
              (fun kv => (axisOf kv.1, kv.2)))
      ∧ b = calls.all (callSuccess stages_list))
    ∧ Microscope.move_stage [xyController b1, zfController b2]
        [("x_abs", 10), ("z_abs", 5)] =
      Except.ok (b1 && b2, [StageCall.moveAbsolute 0 [("x_abs", 10)],
        StageCall.moveAbsolute 1 [("z_abs", 5)]]) := by
  constructor
  · cases pos_dict with
    | nil =>
      refine ⟨true, [], ?_, ?_, ?_, rfl⟩
      · rw [show Microscope.move_stage stages_list [] =
          Except.ok (moveStageLoop [] stages_list 0) from rfl]
        rw [moveStageLoop_nil_pos]
      · intro n hn
        simp
      · intro c hc
        simp at hc
    | cons kv1 tail =>
      obtain ⟨key, v⟩ := kv1
      cases tail with
      | nil =>
        obtain ⟨n, hn, hax⟩ := howned (key, v) (by simp)
        have hdict : stagesDict stages_list (axisOf key) =
            some (n, stages_list.get ⟨n, hn⟩) := by
          rw [stagesDict]
          rw [show stages_list.enum = List.enumFrom 0 stages_list from rfl]
          rw [enumFrom_filter_owner stages_list hdisj 0 n hn hax]
          simp
        have hms : Microscope.move_stage stages_list [(key, v)] =
            Except.ok ((stages_list.get ⟨n, hn⟩).move_axis_absolute (axisOf key) v,
              [StageCall.moveAxisAbsolute n (axisOf key) v]) := by
          rw [show Microscope.move_stage stages_list [(key, v)] =
            (match stagesDict stages_list (axisOf key) with
             | some (i, st) => Except.ok (st.move_axis_absolute (axisOf key) v,
                 [StageCall.moveAxisAbsolute i (axisOf key) v])
             | none => Except.error ()) from rfl]
          rw [hdict]
        have hax' : axisOf key ∈ (stages_list.get ⟨n, hn⟩).axes := hax
        refine ⟨_, _, hms, ?_, ?_, ?_⟩
        · intro j hj
          rw [List.countP_cons, List.countP_nil]
          by_cases hjn : j = n
          · subst hjn
            have hany : ([((key : String), (v : ℚ))].any (fun kv =>
                decide (axisOf kv.1 ∈ (stages_list.get ⟨j, hj⟩).axes))) = true := by
              rw [List.any_cons, List.any_nil, Bool.or_false]
              exact decide_eq_true hax'
            have hpred : ((StageCall.moveAxisAbsolute j (axisOf key) v).stage == j) = true := by
              simp [StageCall.stage]
            rw [hpred, hany]
            simp
          · have hnj : n ≠ j := fun h => hjn h.symm
            have hnot : axisOf key ∉ (stages_list.get ⟨j, hj⟩).axes :=
              disjoint_unique_owner hdisj hn hj hax' hjn
            have hany : ([((key : String), (v : ℚ))].any (fun kv =>
                decide (axisOf kv.1 ∈ (stages_list.get ⟨j, hj⟩).axes))) = false := by
              rw [List.any_cons, List.any_nil, Bool.or_false]
              exact decide_eq_false hnot
            have hpred : ((StageCall.moveAxisAbsolute n (axisOf key) v).stage == j) = false :=
              beq_eq_false_iff_ne.mpr (by simp only [StageCall.stage]; exact hnj)
            rw [hpred, hany]
            simp
        · intro c hc
          rw [List.mem_singleton] at hc
          subst hc
          refine ⟨n, hn, rfl, ?_⟩
          have hfilter : ([((key : String), (v : ℚ))].filter (fun kv =>
              decide (axisOf kv.1 ∈ (stages_list.get ⟨n, hn⟩).axes))) = [(key, v)] := by
            rw [List.filter_cons, List.filter_nil]
            rw [if_pos (decide_eq_true hax')]
          rw [hfilter]
          simp [StageCall.payload, axisOf_idem]
        · have hcs : callSuccess stages_list (StageCall.moveAxisAbsolute n (axisOf key) v) =
              (stages_list.get ⟨n, hn⟩).move_axis_absolute (axisOf key) v := by
            rw [callSuccess, List.get?_eq_get hn]
          rw [List.all_cons, List.all_nil, hcs, Bool.and_true]
      | cons kv2 tail2 =>
        have hms : Microscope.move_stage stages_list ((key, v) :: kv2 :: tail2) =
            Except.ok (moveStageLoop ((key, v) :: kv2 :: tail2) stages_list 0) := rfl
        refine ⟨(moveStageLoop ((key, v) :: kv2 :: tail2) stages_list 0).1,
          (moveStageLoop ((key, v) :: kv2 :: tail2) stages_list 0).2, hms, ?_, ?_, ?_⟩
        · intro n hn
          have hcnt := moveStageLoop_count ((key, v) :: kv2 :: tail2) stages_list 0 n hn
          rw [show (0 : Nat) + n = n from by omega] at hcnt
          rw [hcnt, filter_isEmpty_eq_not_any]
          by_cases hany : (((key, v) :: kv2 :: tail2).any (fun kv =>
              decide (axisOf kv.1 ∈ (stages_list.get ⟨n, hn⟩).axes))) = true
          · rw [hany, if_pos rfl]
            simp
          · replace hany := Bool.not_eq_true _ ▸ hany
            rw [hany]
            simp
        · intro c hc
          obtain ⟨k, hk, hceq, -⟩ := moveStageLoop_mem _ stages_list 0 c hc
          rw [show (0 : Nat) + k = k from by omega] at hceq
          refine ⟨k, hk, ?_, ?_⟩
          · rw [hceq]
            rfl
          · rw [hceq]
            rfl
        · exact moveStageLoop_success _ stages_list stages_list 0
            (fun k hk => by rw [Nat.zero_add])
  · cases b1 <;> cases b2 <;> rfl

/-- Witness for C4: the concrete two-controller scenario with Controller1
succeeding and Controller2 failing returns `false` and the two partitioned
calls. -/
theorem C4_move_stage_partition_witness :
    Microscope.move_stage [xyController true, zfController false]
        [("x_abs", 10), ("z_abs", 5)] =
      Except.ok (false, [StageCall.moveAbsolute 0 [("x_abs", 10)],
        StageCall.moveAbsolute 1 [("z_abs", 5)]]) := by
  have hdisjW : [xyController true, zfController false].Pairwise
      (fun s t => ∀ a, a ∈ s.axes → a ∉ t.axes) := by
    rw [List.pairwise_cons]
    refine ⟨?_, List.pairwise_singleton _ _⟩
    intro t ht a ha
    rw [List.mem_singleton] at ht
    subst ht
    simp [xyController, zfController] at ha ⊢
    rcases ha with rfl | rfl <;> simp
  have hownedW : ∀ kv ∈ [(("x_abs" : String), (10 : ℚ)), ("z_abs", 5)],
      ∃ n, ∃ hn : n < ([xyController true, zfController false] : List StageBinding).length,
        axisOf kv.1 ∈ (([xyController true, zfController false] :
          List StageBinding).get ⟨n, hn⟩).axes := by
    intro kv hkv
    rcases List.mem_cons.mp hkv with h | h
    · subst h
      exact ⟨0, by norm_num, by decide⟩
    · rw [List.mem_singleton] at h
      subst h
      exact ⟨1, by norm_num, by decide⟩
  exact (C4_move_stage_partition [xyController true, zfController false]
    [("x_abs", 10), ("z_abs", 5)] true false hdisjW hownedW).2

/-!
## Orchestrator state machine: `prepare_next_channel`, `stop_stage`,
`end_acquisition`

The orchestrator slice of `Microscope` state used by the channel ring and
the teardown path.  Hardware side effects are embedded as an emitted call
trace (`HwCall`).  The stages report only their f-axis position here
(`physF`, the value a fresh `report_position` query would contribute as
`f_pos`; `none` when no stage owns f); `ret_pos_f` is the `f_pos` entry of
the accumulated `ret_pos_dict` cache.  Dict fields the code treats as total
(`channel[k]` per filter wheel, `laser_wavelength[i]`) are functions.
-/

/-- A hardware side effect issued by the orchestrator. -/
inductive HwCall where
  | setFilter (wheel filterName : String)
  | setLineInterval (li : ℚ)
  | setExposure (t : ℚ)
  | laserOn (k : String)
  | laserOff (k : String)
  | laserSetPower (k : String) (p : ℚ)
  | daqStopAcquisition
  | daqPrepareAcquisition (channel : Nat)
  | moveFocus (target : ℚ)
  | stageStop
  | closeImageSeries
  | closeShutter
  | openShutter
deriving DecidableEq

/-- One channel of `MicroscopeState.channels` as read by
`prepare_next_channel`: selection flag, exposure (ms), laser index and
power, defocus (µm), and the per-filter-wheel filter names
(`channel[k]`). -/
structure OrchChannel where
  is_selected : Bool
  camera_exposure_time : ℚ
  laser_index : Nat
  laser_power : ℚ
  defocus : ℚ
  filters : String → String

/-- The configuration slice the orchestrator reads: the channel dict, the
filter wheel keys, the laser dict keys, `laser_wavelength` as a function of
the laser index, and the camera mode data used by
`set_camera_exposure_time`.  `lightsheet_fn` embeds the first two components
of `calculate_light_sheet_exposure_time` (exposure, line interval). -/
structure OrchConfig where
  channels : List (Nat × OrchChannel)
  filter_wheels : List String
  lasers : List String
  laser_wavelength : Nat → String
  sensor_mode : SensorMode
  lightsheet_fn : ℚ → ℚ × ℚ

/-- The orchestrator state fields used by the channel ring and teardown. -/
structure OrchState where
  current_channel : Nat
  central_focus : Option ℚ
  current_laser_index : Nat
  ask_stage_for_position : Bool
  ret_pos_f : Option ℚ
  camera_is_acquiring : Bool
deriving DecidableEq

/-- `get_available_channels`: the selected channel indices in dict order. -/
def availableChannels (cfg : OrchConfig) : List Nat :=
  (cfg.channels.filter (fun p => p.2.is_selected)).map Prod.fst

/-- `Microscope.get_stage_position` restricted to the f axis: a fresh query
happens only when `ask_stage_for_position` is set, and updates the
accumulated cache only with the keys the stages report. -/
def get_stage_position (physF : Option ℚ) (st : OrchState) : Option ℚ × OrchState :=
  if st.ask_stage_for_position then
    let ret := match physF with
      | some p => some p
      | none => st.ret_pos_f
    (ret, { st with ask_stage_for_position := false, ret_pos_f := ret })
  else (st.ret_pos_f, st)

/-- The ring-advance computation of `prepare_next_channel`: from 0 go to the
first available channel; otherwise step to the successor of the current
channel's position in `available_channels`, wrapping around.  `Except.error`
embeds the `IndexError`/`ValueError` on an empty list or an absent current
channel. -/
def nextChannel (cfg : OrchConfig) (current : Nat) : Except Unit Nat :=
  let avail := availableChannels cfg
  if current = 0 then
    match avail with
    | [] => Except.error ()
    | a :: _ => Except.ok a
  else
    match avail.findIdx? (fun c => c == current) with
    | none => Except.error ()
    | some i => Except.ok (avail.getD ((i + 1) % avail.length) 0)

/-- `Microscope.set_camera_exposure_time(channel)` as its emitted calls: in
Light-Sheet mode the line interval is recomputed and set before the
(adjusted) exposure time. -/
def set_camera_exposure_time (cfg : OrchConfig) (ch : OrchChannel) : List HwCall :=
  let current_exposure_time := ch.camera_exposure_time / 1000
  if cfg.sensor_mode = SensorMode.LightSheet then
    let p := cfg.lightsheet_fn current_exposure_time
    [HwCall.setLineInterval p.2, HwCall.setExposure p.1]
  else
    [HwCall.setExposure current_exposure_time]

/-- The tail of `prepare_next_channel`: establish the central focus (from a
fresh stage query on first use) and, when one is known, append the defocus
move `central_focus + channel["defocus"]` (issued via `move_stage` with
`update_focus=False`, which forces the next position read to query the
hardware). -/
def focusDispatch (st2 : OrchState) (base : List HwCall) (d : ℚ) : OrchState × List HwCall :=
  match st2.central_focus with
  | some c =>
    ({ st2 with ask_stage_for_position := true }, base ++ [HwCall.moveFocus (c + d)])
  | none => (st2, base)

/-- The hardware-programming body of `prepare_next_channel` once the ring
has advanced to `next` with channel data `ch`: filter wheels, camera
exposure, all lasers off then power on the new channel's laser (turn-on is
commented out in the source), optional DAQ stop/reprogram, then the defocus
move relative to the central focus (recorded from a fresh stage query on
first use; the `move_stage` call forces the next position read to query the
hardware and, with `update_focus=False`, leaves the central focus). -/
def prepareBody (cfg : OrchConfig) (physF : Option ℚ) (update_daq_task_flag : Bool)
    (st : OrchState) (next : Nat) (ch : OrchChannel) : OrchState × List HwCall :=
  let filter_calls := cfg.filter_wheels.map (fun k => HwCall.setFilter k (ch.filters k))
  let exposure_calls := set_camera_exposure_time cfg ch
  let laser_calls := cfg.lasers.map HwCall.laserOff ++
    [HwCall.laserSetPower (cfg.laser_wavelength ch.laser_index) ch.laser_power]
  let daq_calls := if update_daq_task_flag then
      [HwCall.daqStopAcquisition, HwCall.daqPrepareAcquisition next] else []
  let st1 := { st with current_channel := next, current_laser_index := ch.laser_index }
  let st2 :=
    if st1.central_focus = none then
      let r := get_stage_position physF st1
      { r.2 with central_focus := r.1 }
    else st1
  focusDispatch st2 (filter_calls ++ exposure_calls ++ laser_calls ++ daq_calls) ch.defocus

/-- `Microscope.prepare_next_channel(update_daq_task_flag)`: advance the
ring; if the computed next channel equals the current one, return with no
hardware calls; otherwise program the hardware for the new channel.
`Except.error` embeds an uncaught lookup exception. -/
def Microscope.prepare_next_channel (cfg : OrchConfig) (physF : Option ℚ) (st : OrchState)
    (update_daq_task_flag : Bool) : Except Unit (OrchState × List HwCall) :=
  match nextChannel cfg st.current_channel with
  | Except.error e => Except.error e
  | Except.ok next =>
    if st.current_channel = next then
      Except.ok ({ st with current_channel := next }, [])
    else
      match cfg.channels.lookup next with
      | none => Except.error ()
      | some ch => Except.ok (prepareBody cfg physF update_daq_task_flag st next ch)

/-- `Microscope.stop_stage`: stop every stage, force a fresh position query,
and reset the central focus to the freshly reported f position (keeping the
old one when no f position is reported). -/
def Microscope.stop_stage (physF : Option ℚ) (st : OrchState) : OrchState × List HwCall :=
  let st1 := { st with ask_stage_for_position := true }
  let r := get_stage_position physF st1
  ({ r.2 with central_focus := match r.1 with
      | some p => some p
      | none => r.2.central_focus },
   [HwCall.stageStop])

/-- `Microscope.end_acquisition`: stop the DAQ, stop the stage (which
refreshes the central focus), restore the central focus if one is recorded
(a single-axis `move_stage` that clears it and forces the next position
query), close the camera image series if acquiring, close the shutter, turn
off all lasers, and reset the channel ring. -/
def Microscope.end_acquisition (cfg : OrchConfig) (physF : Option ℚ) (st : OrchState) :
    OrchState × List HwCall :=
  let sp := Microscope.stop_stage physF st
  let fp : OrchState × List HwCall :=
    match sp.1.central_focus with
    | some c =>
      ({ sp.1 with ask_stage_for_position := true, central_focus := none },
        [HwCall.moveFocus c])
    | none => (sp.1, [])
  let cam_calls := if fp.1.camera_is_acquiring then [HwCall.closeImageSeries] else []
  ({ fp.1 with camera_is_acquiring := false, current_channel := 0, central_focus := none },
   HwCall.daqStopAcquisition ::
     (sp.2 ++ (fp.2 ++ (cam_calls ++
       (HwCall.closeShutter :: cfg.lasers.map HwCall.laserOff)))))

/-- Iterating `prepare_next_channel`, keeping only the state. -/
def prepareIter (cfg : OrchConfig) (physF : Option ℚ) (update_daq : Bool) :
    Nat → OrchState → Except Unit OrchState
  | 0, st => Except.ok st
  | n + 1, st =>
    match Microscope.prepare_next_channel cfg physF st update_daq with
    | Except.error e => Except.error e
    | Except.ok (st', _) => prepareIter cfg physF update_daq n st'

/-- C10: after `stop_stage` the recorded central focus equals the freshly
reported f position (the prior value is kept only when none is reported,
i.e. no stage contributes `f_pos`); consequently `end_acquisition` after a
mid-capture stop restores the post-stop focus, not a central-focus
reference recorded earlier. -/
theorem C10_stop_stage_resets_central_focus (cfg : OrchConfig) (st : OrchState)
    (p c0 : ℚ) :
    ((Microscope.stop_stage (some p) st).1.central_focus = some p)
    ∧ (st.ret_pos_f = none →
        (Microscope.stop_stage none st).1.central_focus = st.central_focus)
    ∧ (st.central_focus = some c0 →
        HwCall.moveFocus p ∈ (Microscope.end_acquisition cfg (some p) st).2
        ∧ (c0 ≠ p →
            HwCall.moveFocus c0 ∉ (Microscope.end_acquisition cfg (some p) st).2)) := by
  have hstop : (Microscope.stop_stage (some p) st).1.central_focus = some p := by
    simp [Microscope.stop_stage, get_stage_position]
  refine ⟨hstop, ?_, ?_⟩
  · intro hret
    simp [Microscope.stop_stage, get_stage_position, hret]
  · intro _
    have htrace : (Microscope.end_acquisition cfg (some p) st).2 =
        HwCall.daqStopAcquisition ::
          ([HwCall.stageStop] ++ ([HwCall.moveFocus p] ++
            ((if (Microscope.stop_stage (some p) st).1.camera_is_acquiring
              then [HwCall.closeImageSeries] else []) ++
              (HwCall.closeShutter :: cfg.lasers.map HwCall.laserOff)))) := by
      rw [Microscope.end_acquisition]
      rw [show (Microscope.stop_stage (some p) st).2 = [HwCall.stageStop] from rfl]
      rw [hstop]
    constructor
    · rw [htrace]
      simp
    · intro hne
      rw [htrace]
      intro hmem
      simp only [List.mem_cons, List.mem_append, List.mem_map, List.mem_nil_iff,
        or_false] at hmem
      rcases hmem with h | h | h | h | h | ⟨a, -, ha⟩
      · exact HwCall.noConfusion h
      · exact HwCall.noConfusion h
      · exact hne (HwCall.moveFocus.inj h)
      · revert h
        split <;> simp
      · exact HwCall.noConfusion h
      · exact HwCall.noConfusion ha

/-- Witness for C10: stopping at reported f = 4 while the recorded central
focus is 9 re-records 4, and the focus `end_acquisition` restores is 4,
not 9. -/
theorem C10_stop_stage_resets_central_focus_witness :
    ((Microscope.stop_stage (some 4)
        { current_channel := 2, central_focus := some 9, current_laser_index := 0,
          ask_stage_for_position := false, ret_pos_f := none,
          camera_is_acquiring := true }).1.central_focus = some 4)
    ∧ HwCall.moveFocus 4 ∈ (Microscope.end_acquisition
        { channels := [], filter_wheels := [], lasers := ["488"],
          laser_wavelength := fun _ => "488", sensor_mode := SensorMode.Normal,
          lightsheet_fn := fun e => (e, e) } (some 4)
        { current_channel := 2, central_focus := some 9, current_laser_index := 0,
          ask_stage_for_position := false, ret_pos_f := none,
          camera_is_acquiring := true }).2
    ∧ HwCall.moveFocus 9 ∉ (Microscope.end_acquisition
        { channels := [], filter_wheels := [], lasers := ["488"],
          laser_wavelength := fun _ => "488", sensor_mode := SensorMode.Normal,
          lightsheet_fn := fun e => (e, e) } (some 4)
        { current_channel := 2, central_focus := some 9, current_laser_index := 0,
          ask_stage_for_position := false, ret_pos_f := none,
          camera_is_acquiring := true }).2 := by
  have h := C10_stop_stage_resets_central_focus
    { channels := [], filter_wheels := [], lasers := ["488"],
      laser_wavelength := fun _ => "488", sensor_mode := SensorMode.Normal,
      lightsheet_fn := fun e => (e, e) }
    { current_channel := 2, central_focus := some 9, current_laser_index := 0,
      ask_stage_for_position := false, ret_pos_f := none, camera_is_acquiring := true }
    4 9
  exact ⟨h.1, (h.2.2 rfl).1, (h.2.2 rfl).2 (by norm_num)⟩

/-- In a duplicate-free list the first index found for the value at `i`
is `i` itself. -/
theorem findIdx?_get_of_nodup :
    ∀ (l : List Nat), l.Nodup → ∀ (i : Nat) (hi : i < l.length),
      l.findIdx? (fun c => c == l.get ⟨i, hi⟩) = some i := by
  intro l
  induction l with
  | nil => intro _ i hi; simp at hi
  | cons a tl ih =>
    intro hnodup i hi
    rw [List.nodup_cons] at hnodup
    match i with
    | 0 => simp [List.findIdx?_cons]
    | m + 1 =>
      have hm : m < tl.length := Nat.lt_of_succ_lt_succ hi
      have hget : (a :: tl).get ⟨m + 1, hi⟩ = tl.get ⟨m, hm⟩ := rfl
      have hne : a ≠ tl.get ⟨m, hm⟩ := by
        intro h
        exact hnodup.1 (h.symm ▸ tl.get_mem m hm)
      rw [List.findIdx?_cons, hget]
      rw [if_neg (fun hb => hne (eq_of_beq hb))]
      rw [List.findIdx?_succ, ih hnodup.2 m hm]
      rfl

/-- A key occurring among the keys of an association list has a lookup. -/
theorem lookup_of_mem_keys {β : Type} :
    ∀ (l : List (Nat × β)) (k : Nat), k ∈ l.map Prod.fst → ∃ b, l.lookup k = some b := by
  intro l
  induction l with
  | nil => intro k h; simp at h
  | cons hd tl ih =>
    intro k h
    obtain ⟨a, b⟩ := hd
    by_cases hk : (k == a) = true
    · exact ⟨b, by simp [List.lookup, hk]⟩
    · rw [List.map_cons, List.mem_cons] at h
      rcases h with h | h
      · exact absurd (by simp [h]) hk
      · obtain ⟨b', hb'⟩ := ih k h
        exact ⟨b', by simp [List.lookup, hk, hb']⟩

/-- Every available channel is a key of the channel dict. -/
theorem mem_availableChannels_keys (cfg : OrchConfig) (c : Nat) :
    c ∈ availableChannels cfg → c ∈ cfg.channels.map Prod.fst := by
  intro h
  rw [availableChannels] at h
  obtain ⟨p, hp, rfl⟩ := List.mem_map.mp h
  exact List.mem_map.mpr ⟨p, (List.mem_filter.mp hp).1, rfl⟩

/-- A fresh position query does not change the current channel. -/
theorem get_stage_position_current (physF : Option ℚ) (st : OrchState) :
    (get_stage_position physF st).2.current_channel = st.current_channel := by
  rw [get_stage_position.eq_def]
  split <;> rfl

/-- The defocus tail of `prepareBody` does not change the current
channel. -/
theorem focusDispatch_current (st2 : OrchState) (base : List HwCall) (d : ℚ) :
    (focusDispatch st2 base d).1.current_channel = st2.current_channel := by
  rcases hc : st2.central_focus with _ | c <;> simp [focusDispatch, hc]

/-- `prepareBody` leaves the current channel at the ring successor it was
called with. -/
theorem prepareBody_current (cfg : OrchConfig) (physF : Option ℚ) (upd : Bool)
    (st : OrchState) (next : Nat) (ch : OrchChannel) :
    (prepareBody cfg physF upd st next ch).1.current_channel = next := by
  simp only [prepareBody]
  rw [focusDispatch_current]
  split
  · exact get_stage_position_current physF _
  · rfl

/-- One `prepare_next_channel` step from ring position `i` lands the current
channel at ring position `(i + 1) % N` (also through the no-op
short-circuit, which only arises at `N = 1`). -/
theorem prepare_next_channel_step (cfg : OrchConfig) (physF : Option ℚ) (upd : Bool)
    (st : OrchState)
    (hnz : 0 ∉ availableChannels cfg) (hnodup : (availableChannels cfg).Nodup)
    (i : Nat) (hi : i < (availableChannels cfg).length)
    (hcur : st.current_channel = (availableChannels cfg).get ⟨i, hi⟩) :
    ∃ st' calls,
      Microscope.prepare_next_channel cfg physF st upd = Except.ok (st', calls)
      ∧ st'.current_channel = (availableChannels cfg).get
          ⟨(i + 1) % (availableChannels cfg).length,
            Nat.mod_lt _ (Nat.lt_of_le_of_lt (Nat.zero_le i) hi)⟩ := by
  have hlen0 : 0 < (availableChannels cfg).length :=
    Nat.lt_of_le_of_lt (Nat.zero_le i) hi
  have hmlt : (i + 1) % (availableChannels cfg).length <
      (availableChannels cfg).length := Nat.mod_lt _ hlen0
  have hmem : st.current_channel ∈ availableChannels cfg := by
    rw [hcur]; exact List.get_mem _ i hi
  have hcur0 : st.current_channel ≠ 0 := fun h => hnz (h ▸ hmem)
  have hfind : (availableChannels cfg).findIdx? (fun c => c == st.current_channel) =
      some i := by
    rw [hcur]
    exact findIdx?_get_of_nodup _ hnodup i hi
  have hnextdef : nextChannel cfg st.current_channel =
      Except.ok ((availableChannels cfg).get
        ⟨(i + 1) % (availableChannels cfg).length, hmlt⟩) := by
    rw [nextChannel]
    simp only [if_neg hcur0, hfind]
    congr 1
    rw [List.getD_eq_get?, List.get?_eq_get hmlt]
    rfl
  by_cases heq : st.current_channel =
      (availableChannels cfg).get ⟨(i + 1) % (availableChannels cfg).length, hmlt⟩
  · refine ⟨{ st with current_channel := ((availableChannels cfg).get
        ⟨(i + 1) % (availableChannels cfg).length, hmlt⟩) }, [], ?_, rfl⟩
    simp only [Microscope.prepare_next_channel, hnextdef]
    rw [if_pos heq]
  · have hnxtmem : (availableChannels cfg).get
        ⟨(i + 1) % (availableChannels cfg).length, hmlt⟩ ∈ availableChannels cfg :=
      List.get_mem _ _ _
    obtain ⟨ch, hch⟩ := lookup_of_mem_keys cfg.channels _
      (mem_availableChannels_keys cfg _ hnxtmem)
    refine ⟨(prepareBody cfg physF upd st ((availableChannels cfg).get
        ⟨(i + 1) % (availableChannels cfg).length, hmlt⟩) ch).1,
      (prepareBody cfg physF upd st ((availableChannels cfg).get
        ⟨(i + 1) % (availableChannels cfg).length, hmlt⟩) ch).2, ?_, ?_⟩
    · simp only [Microscope.prepare_next_channel, hnextdef]
      rw [if_neg heq, hch]
    · exact prepareBody_current cfg physF upd st _ ch

/-- Iterating `prepare_next_channel` `k` times from ring position `i` lands
at ring position `(i + k) % N`. -/
theorem prepareIter_rotation (cfg : OrchConfig) (physF : Option ℚ) (upd : Bool)
    (hnz : 0 ∉ availableChannels cfg) (hnodup : (availableChannels cfg).Nodup) :
    ∀ (k : Nat) (st : OrchState) (i : Nat) (hi : i < (availableChannels cfg).length),
      st.current_channel = (availableChannels cfg).get ⟨i, hi⟩ →
      ∃ st', prepareIter cfg physF upd k st = Except.ok st'
        ∧ st'.current_channel = (availableChannels cfg).get
            ⟨(i + k) % (availableChannels cfg).length,
              Nat.mod_lt _ (Nat.lt_of_le_of_lt (Nat.zero_le i) hi)⟩ := by
  intro k
  induction k with
  | zero =>
    intro st i hi hcur
    refine ⟨st, rfl, ?_⟩
    rw [hcur]
    simp only [Nat.add_zero, Nat.mod_eq_of_lt hi]
  | succ k ihk =>
    intro st i hi hcur
    obtain ⟨st1, calls, hstep, hcur1⟩ :=
      prepare_next_channel_step cfg physF upd st hnz hnodup i hi hcur
    obtain ⟨st', hiter, hcur'⟩ := ihk st1 ((i + 1) % (availableChannels cfg).length)
      (Nat.mod_lt _ (Nat.lt_of_le_of_lt (Nat.zero_le i) hi)) hcur1
    refine ⟨st', ?_, ?_⟩
    · simp only [prepareIter, hstep]
      exact hiter
    · rw [hcur']
      have hidx : ((i + 1) % (availableChannels cfg).length + k) %
          (availableChannels cfg).length =
          (i + (k + 1)) % (availableChannels cfg).length := by
        rw [Nat.mod_add_mod]
        congr 1
        omega
      simp only [hidx]

/-- A configuration with exactly one selected channel (index 1). -/
def singleChannelConfig : OrchConfig := {
  channels := [(1, { is_selected := true, camera_exposure_time := 10, laser_index := 0,
                     laser_power := 20, defocus := 1, filters := fun _ => "GFP" })]
  filter_wheels := ["filter_wheel_0"]
  lasers := ["488"]
  laser_wavelength := fun _ => "488"
  sensor_mode := SensorMode.Normal
  lightsheet_fn := fun e => (e, e) }

/-- The orchestrator state right after `prepare_acquisition`:
`current_channel = 0`, no central focus recorded. -/
def freshState : OrchState := {
  current_channel := 0, central_focus := none, current_laser_index := 0,
  ask_stage_for_position := true, ret_pos_f := none, camera_is_acquiring := true }

/-- The state after the first `prepare_next_channel` call on
`singleChannelConfig` from `freshState` with the stages reporting f = 5. -/
def firstCallState : OrchState := {
  current_channel := 1, central_focus := some 5, current_laser_index := 0,
  ask_stage_for_position := true, ret_pos_f := some 5, camera_is_acquiring := true }

/-- The hardware calls of that first `prepare_next_channel` call. -/
def firstCallTrace : List HwCall :=
  [HwCall.setFilter "filter_wheel_0" "GFP", HwCall.setExposure (10 / 1000),
   HwCall.laserOff "488", HwCall.laserSetPower "488" 20,
   HwCall.daqStopAcquisition, HwCall.daqPrepareAcquisition 1, HwCall.moveFocus 6]

/-- Counterexample to C5 as stated: with exactly one selected channel, the
*first* call to `prepare_next_channel` (from the post-`prepare_acquisition`
state `current_channel = 0`) is not a no-op — it advances to channel 1 (so
one call does not return `current_channel` to its original value 0) and
programs the filter wheel, camera, lasers, DAQ and focus. -/
theorem C5_counterexample_first_call_programs_hardware :
    Microscope.prepare_next_channel singleChannelConfig (some 5) freshState true =
      Except.ok (firstCallState, firstCallTrace)
    ∧ firstCallState.current_channel ≠ freshState.current_channel
    ∧ firstCallTrace ≠ [] := by
  refine ⟨?_, by decide, by decide⟩
  rw [show Microscope.prepare_next_channel singleChannelConfig (some 5) freshState true =
    Except.ok (firstCallState,
      [HwCall.setFilter "filter_wheel_0" "GFP", HwCall.setExposure (10 / 1000),
       HwCall.laserOff "488", HwCall.laserSetPower "488" 20,
       HwCall.daqStopAcquisition, HwCall.daqPrepareAcquisition 1,
       HwCall.moveFocus (5 + 1)]) from rfl]
  norm_num [firstCallTrace]

/-- C5 (amended): once the current channel is one of the selected channels
(i.e. from the second call on; selected channel indices are nonzero), N
calls to `prepare_next_channel` return `current_channel` to its original
value, and with exactly one selected channel every such call is a no-op
that issues no hardware calls and leaves the state unchanged. -/
theorem C5_channel_ring_amended (cfg : OrchConfig) (physF : Option ℚ) (upd : Bool)
    (st : OrchState)
    (hnz : 0 ∉ availableChannels cfg) (hnodup : (availableChannels cfg).Nodup)
    (hmem : st.current_channel ∈ availableChannels cfg) :
    (∃ st', prepareIter cfg physF upd (availableChannels cfg).length st = Except.ok st'
        ∧ st'.current_channel = st.current_channel)
    ∧ (availableChannels cfg = [st.current_channel] →
        Microscope.prepare_next_channel cfg physF st upd = Except.ok (st, [])) := by
  constructor
  · obtain ⟨⟨i, hi⟩, hget⟩ := List.mem_iff_get.mp hmem
    obtain ⟨st', hiter, hcur'⟩ := prepareIter_rotation cfg physF upd hnz hnodup
      (availableChannels cfg).length st i hi hget.symm
    refine ⟨st', hiter, ?_⟩
    rw [hcur', ← hget]
    have hidx : (i + (availableChannels cfg).length) % (availableChannels cfg).length
        = i := by
      rw [Nat.add_mod_right]
      exact Nat.mod_eq_of_lt hi
    simp only [hidx]
  · intro heq
    have hcur0 : st.current_channel ≠ 0 := fun h => hnz (h ▸ hmem)
    have hnextdef : nextChannel cfg st.current_channel =
        Except.ok st.current_channel := by
      rw [nextChannel]
      simp only [if_neg hcur0, heq]
      simp [List.findIdx?_cons]
    simp only [Microscope.prepare_next_channel, hnextdef]
    simp

/-- Witness for the amended C5: from the post-first-call state on the
single-channel configuration, `prepare_next_channel` is a no-op issuing no
hardware calls. -/
theorem C5_channel_ring_amended_witness :
    Microscope.prepare_next_channel singleChannelConfig (some 5) firstCallState true =
      Except.ok (firstCallState, []) :=
  (C5_channel_ring_amended singleChannelConfig (some 5) true firstCallState
    (by decide) (by decide) (by decide)).2 rfl

/-!
## Failure cleanup around channel transitions (C6)

`microscope.py` itself wraps no try/except around `prepare_next_channel`;
the wrapping lives in the acquisition loop of `navigate.model.model`, which
is not under `src/`.  It is modelled below from the spec.
-/

/-- Run a list of device calls against a failure model: `fails c = true`
means the call `c` raises (taking no effect).  Returns the performed prefix
and whether a call raised. -/
def execCalls (fails : HwCall → Bool) : List HwCall → List HwCall × Bool
  | [] => ([], false)
  | c :: rest =>
    if fails c then ([], true)
    else
      let r := execCalls fails rest
      (c :: r.1, r.2)

/-- Modelled from the spec: the acquisition orchestration loop that invokes
`prepare_next_channel` (it lives in `navigate.model.model`, which is not
under `src/`) wraps channel transitions so that "any device call that
raises during `prepare_next_channel` ... triggers the same cleanup as
`end_acquisition`" before the error propagates.  A failure — a raising
device call, or a raising lookup inside `prepare_next_channel` itself —
runs `end_acquisition` and re-raises; the raised error carries the full
hardware call trace of the failed attempt (performed prefix plus
cleanup). -/
def prepare_next_channel_guarded (cfg : OrchConfig) (physF : Option ℚ) (st : OrchState)
    (update_daq : Bool) (fails : HwCall → Bool) :
    Except (List HwCall) (OrchState × List HwCall) :=
  match Microscope.prepare_next_channel cfg physF st update_daq with
  | Except.error _ => Except.error (Microscope.end_acquisition cfg physF st).2
  | Except.ok (st', calls) =>
    let r := execCalls fails calls
    if r.2 then Except.error (r.1 ++ (Microscope.end_acquisition cfg physF st').2)
    else Except.ok (st', r.1)

/-- The laser-energized/shutter state of the hardware, as driven by the
emitted call trace. -/
structure HwState where
  lasersOn : String → Bool
  shutterOpen : Bool

/-- The effect of one device call on the laser/shutter state. -/
def applyCall (h : HwState) : HwCall → HwState
  | HwCall.laserOff k => { h with lasersOn := fun x => if x = k then false else h.lasersOn x }
  | HwCall.laserOn k => { h with lasersOn := fun x => if x = k then true else h.lasersOn x }
  | HwCall.closeShutter => { h with shutterOpen := false }
  | HwCall.openShutter => { h with shutterOpen := true }
  | _ => h

/-- The effect of a call trace on the laser/shutter state. -/
def applyCalls (h : HwState) (cs : List HwCall) : HwState := cs.foldl applyCall h

/-- A trace of laser-off calls never touches the shutter. -/
theorem lasersOff_shutter (ks : List String) :
    ∀ h : HwState, (applyCalls h (ks.map HwCall.laserOff)).shutterOpen = h.shutterOpen := by
  induction ks with
  | nil => intro h; rfl
  | cons a rest ih =>
    intro h
    rw [List.map_cons]
    exact ih (applyCall h (HwCall.laserOff a))

/-- A trace of laser-off calls never re-energizes a laser. -/
theorem lasersOff_preserve (ks : List String) :
    ∀ (h : HwState) (k : String), h.lasersOn k = false →
      (applyCalls h (ks.map HwCall.laserOff)).lasersOn k = false := by
  induction ks with
  | nil => intro h k hk; exact hk
  | cons a rest ih =>
    intro h k hk
    rw [List.map_cons]
    refine ih _ k ?_
    simp only [applyCall]
    split <;> simp [hk]

/-- After turning off every laser in `ks`, each of them is off. -/
theorem lasersOff_off (ks : List String) :
    ∀ (h : HwState) (k : String), k ∈ ks →
      (applyCalls h (ks.map HwCall.laserOff)).lasersOn k = false := by
  induction ks with
  | nil => intro h k hk; simp at hk
  | cons a rest ih =>
    intro h k hk
    rw [List.map_cons]
    rcases List.mem_cons.mp hk with rfl | hk'
    · refine lasersOff_preserve rest _ k ?_
      simp [applyCall]
    · exact ih _ k hk'

/-- Any trace ending in a shutter close followed by all-lasers-off leaves
every laser off and the shutter closed, whatever came before. -/
theorem cleanup_tail_safe (h0 : HwState) (pre : List HwCall) (lasers : List String) :
    (∀ k, k ∈ lasers →
      (applyCalls h0 (pre ++ (HwCall.closeShutter :: lasers.map HwCall.laserOff))).lasersOn k
        = false)
    ∧ (applyCalls h0 (pre ++ (HwCall.closeShutter :: lasers.map HwCall.laserOff))).shutterOpen
        = false := by
  rw [show applyCalls h0 (pre ++ (HwCall.closeShutter :: lasers.map HwCall.laserOff)) =
    applyCalls (applyCall (applyCalls h0 pre) HwCall.closeShutter)
      (lasers.map HwCall.laserOff) from by
      rw [applyCalls, applyCalls, List.foldl_append]
      rfl]
  constructor
  · intro k hk
    exact lasersOff_off lasers _ k hk
  · rw [lasersOff_shutter]
    rfl

/-- The `end_acquisition` trace ends with the shutter close and the
all-lasers-off sweep. -/
theorem end_acquisition_trace (cfg : OrchConfig) (physF : Option ℚ) (st : OrchState) :
    ∃ pre, (Microscope.end_acquisition cfg physF st).2 =
      pre ++ (HwCall.closeShutter :: cfg.lasers.map HwCall.laserOff) := by
  refine ⟨HwCall.daqStopAcquisition ::
    ((Microscope.stop_stage physF st).2 ++
      ((match (Microscope.stop_stage physF st).1.central_focus with
        | some c => [HwCall.moveFocus c]
        | none => ([] : List HwCall)) ++
        (if (match (Microscope.stop_stage physF st).1.central_focus with
          | some _ => ({ (Microscope.stop_stage physF st).1 with
              ask_stage_for_position := true, central_focus := none } : OrchState)
          | none => (Microscope.stop_stage physF st).1).camera_is_acquiring
          then [HwCall.closeImageSeries] else []))), ?_⟩
  rw [Microscope.end_acquisition]
  rcases hc : (Microscope.stop_stage physF st).1.central_focus with _ | c <;>
    simp [hc, List.append_assoc]

/-- C6: if any device call raises during `prepare_next_channel`, the guarded
transition runs the `end_acquisition` cleanup before propagating the error,
so no laser is left energized and the shutter is closed, from any prior
hardware state. -/
theorem C6_failure_triggers_cleanup (cfg : OrchConfig) (physF : Option ℚ) (st : OrchState)
    (update_daq : Bool) (fails : HwCall → Bool) (h0 : HwState) (trace : List HwCall)
    (herr : prepare_next_channel_guarded cfg physF st update_daq fails =
      Except.error trace) :
    (∀ k, k ∈ cfg.lasers → (applyCalls h0 trace).lasersOn k = false)
    ∧ (applyCalls h0 trace).shutterOpen = false := by
  have hsplit : ∃ pre, trace = pre ++ (HwCall.closeShutter :: cfg.lasers.map HwCall.laserOff) := by
    rw [prepare_next_channel_guarded] at herr
    rcases hp : Microscope.prepare_next_channel cfg physF st update_daq with e | pr
    · rw [hp] at herr
      simp only [Except.error.injEq] at herr
      obtain ⟨pre, hpre⟩ := end_acquisition_trace cfg physF st
      refine ⟨pre, ?_⟩
      rw [← hpre, herr]
    · rw [hp] at herr
      obtain ⟨st', calls⟩ := pr
      by_cases hr : (execCalls fails calls).2 = true
      · simp only [hr, if_true, Except.error.injEq] at herr
        obtain ⟨pre, hpre⟩ := end_acquisition_trace cfg physF st'
        refine ⟨(execCalls fails calls).1 ++ pre, ?_⟩
        rw [← herr, hpre, List.append_assoc]
      · simp only [hr, if_false] at herr
        exact absurd herr (by simp)
  obtain ⟨pre, rfl⟩ := hsplit
  exact cleanup_tail_safe h0 pre cfg.lasers

/-- The cleanup trace of the all-fail scenario: the first device call of
the transition raises, so the performed prefix is empty and the trace is the
`end_acquisition` cleanup. -/
def failureCleanupTrace : List HwCall :=
  [HwCall.daqStopAcquisition, HwCall.stageStop, HwCall.moveFocus 5,
   HwCall.closeImageSeries, HwCall.closeShutter, HwCall.laserOff "488"]

/-- Witness for C6: with every device call failing, the guarded transition
raises with the cleanup trace, after which the laser is off and the shutter
closed even though both started energized/open. -/
theorem C6_failure_triggers_cleanup_witness :
    ((applyCalls { lasersOn := fun _ => true, shutterOpen := true }
        failureCleanupTrace).lasersOn "488" = false)
    ∧ (applyCalls { lasersOn := fun _ => true, shutterOpen := true }
        failureCleanupTrace).shutterOpen = false := by
  have h := C6_failure_triggers_cleanup singleChannelConfig (some 5) freshState true
    (fun _ => true) { lasersOn := fun _ => true, shutterOpen := true }
    failureCleanupTrace rfl
  exact ⟨h.1 "488" (by decide), h.2⟩

/-!
## Serial-protocol adapter: `TigerController.read_response`

`read_response` (asi_tiger_controller.py lines 401-427) reads one line from
the serial port (pyserial `readline`, which keeps the line terminator),
decodes it, and — when the decoded line begins with the error mark `:N` —
raises `TigerException(response)` with the *raw* line.
`TigerException.__init__` looks the raw line up in its `error_codes` dict;
a key that is not verbatim one of the eight documented codes raises
`KeyError` out of the constructor instead.  The embedding takes the decoded
line as input (the `UnicodeDecodeError → return ""` branch is upstream of
it) and returns which of the three outcomes happens.
-/

/-- The `error_codes` table of `TigerException`. -/
def TigerController.error_codes : List (String × String) := [
  (":N-1", "Unknown Command (Not Issued in TG-1000)"),
  (":N-2", "Unrecognized Axis Parameter (valid axes are dependent on the controller)"),
  (":N-3", "Missing parameters (command received requires an axis parameter such as x=1234)"),
  (":N-4", "Parameter Out of Range"),
  (":N-5", "Operation failed"),
  (":N-6", "Undefined Error (command is incorrect, but the controller does not know exactly why."),
  (":N-7", "Invalid Card Address"),
  (":N-21", "Serial Command halted by the HALT command")]

/-- `response.startswith(":N")`. -/
def startsWithColonN (line : String) : Bool := line.data.take 2 == [':', 'N']

/-- The outcome of `read_response` on one decoded line: returned as data, a
`TigerException` carrying code and documented message, or a `KeyError` from
the `error_codes` lookup inside `TigerException.__init__`. -/
inductive TigerReadResult where
  | data (line : String)
  | tigerError (code message : String)
  | keyError (code : String)
deriving DecidableEq

/-- `TigerController.read_response`. -/
def TigerController.read_response (line : String) : TigerReadResult :=
  if startsWithColonN line then
    match TigerController.error_codes.lookup line with
    | some msg => TigerReadResult.tigerError line msg
    | none => TigerReadResult.keyError line
  else TigerReadResult.data line

/-- C9, evaluated at the failing input: the CR/LF-terminated error response
":N-4\r\n" (what `readline` actually yields for a 'Parameter Out of Range'
reply) begins with the error mark, yet the exception construction fails
with a `KeyError` instead of raising a `TigerException` carrying the code
and its documented message; only the bare code ":N-4" — which `readline`
never produces — raises correctly, and non-error lines are returned
unchanged. -/
theorem C9_read_response_at_failing_input :
    TigerController.read_response ":N-4\r\n" = TigerReadResult.keyError ":N-4\r\n"
    ∧ startsWithColonN ":N-4\r\n" = true
    ∧ TigerController.read_response ":N-4" =
        TigerReadResult.tigerError ":N-4" "Parameter Out of Range"
    ∧ TigerController.read_response ":A 10.0 5.0" = TigerReadResult.data ":A 10.0 5.0" := by
  exact ⟨rfl, rfl, rfl, rfl⟩

end Navigate
